import Mathlib

/-!
Verification of the Glacier-Mirror archival engine (src/glacier.py) and its
standalone pruner (src/prune.py) against the repository specification.

The Python source is shallowly embedded: each relevant Python function is
translated to an executable Lean definition operating on explicit state
(association lists for Python dicts, `Option` for `None`, effect traces for
file-system writes).  Python string operations used by the source
(`str.split`, `str.strip`, `str.upper`, `in`, `startswith`, slicing) are
embedded as structurally recursive functions on `List Char` so that the
kernel can evaluate them on concrete inputs.
-/

namespace Glacier

/-! ## Python string primitives -/

/-- Python `str.strip()`: remove whitespace from both ends. -/
def pyStrip (s : String) : String :=
  ⟨((s.data.dropWhile Char.isWhitespace).reverse.dropWhile Char.isWhitespace).reverse⟩

/-- Python `str.upper()` (ASCII-faithful, as used for tag tokens). -/
def pyUpper (s : String) : String :=
  ⟨s.data.map Char.toUpper⟩

/-- Python `needle in hay` for strings: substring containment. -/
def pyContains (hay needle : String) : Bool :=
  hay.data.tails.any fun t => needle.data.isPrefixOf t

/-- Python `s.startswith(p)`. -/
def pyStarts (s p : String) : Bool :=
  p.data.isPrefixOf s.data

/-- Python `s.endswith(p)`. -/
def pyEnds (s p : String) : Bool :=
  p.data.isSuffixOf s.data

/-- Python `s[n:]`: drop the first `n` characters. -/
def pyDropChars (n : Nat) (s : String) : String :=
  ⟨s.data.drop n⟩

/-- Splitter for the fixed three-character tag separator `" ::"`, with
Python `str.split` semantics (non-overlapping, left-to-right). -/
def splitTagSep : List Char → List (List Char)
  | ' ' :: ':' :: ':' :: rest => [] :: splitTagSep rest
  | c :: rest =>
    match splitTagSep rest with
    | t :: ts => (c :: t) :: ts
    | [] => [[c]]
  | [] => [[]]

/-- Python `branch_line.split(" ::")`. -/
def pySplitTags (s : String) : List String :=
  (splitTagSep s.data).map fun l => ⟨l⟩

/-- Splitter on a single character, with Python `str.split(c)` semantics. -/
def splitChar (sep : Char) : List Char → List (List Char)
  | [] => [[]]
  | c :: rest =>
    if c = sep then [] :: splitChar sep rest
    else
      match splitChar sep rest with
      | t :: ts => (c :: t) :: ts
      | [] => [[c]]

/-- Python `s.split(c)` for a one-character separator. -/
def pySplitChar (sep : Char) (s : String) : List String :=
  (splitChar sep s.data).map fun l => ⟨l⟩

/-! ## Branch-line parsing (src/glacier.py, `parse_branch_line`) -/

/-- Result of `parse_branch_line`: the path, the normalized tag tokens
(the code returns them joined as `full_tags`; we also keep the list,
which the code names `clean_tags`), the logic type and the excludes. -/
structure ParsedBranch where
  branch_path : String
  clean_tags : List String
  full_tags : String
  logic_type : String
  branch_excludes : List String
  deriving Repr, DecidableEq

/-- One iteration of the tag loop in `parse_branch_line`: strip the part;
an `"EXCLUDE "` part contributes its case-preserved value, any other part
is upper-cased into the clean tags. -/
def parseTagStep (acc : List String × List String) (p : String) :
    List String × List String :=
  let p := pyStrip p
  if pyStarts p "EXCLUDE " then
    (acc.1, acc.2 ++ [pyStrip (pyDropChars 8 p)])
  else
    (acc.1 ++ [pyUpper p], acc.2)

/-- Embedding of `parse_branch_line` (src/glacier.py:1141-1170): split the
line on `" ::"`; each part is stripped; parts starting with `"EXCLUDE "`
contribute their case-preserved value to the excludes, every other part is
upper-cased into `clean_tags`; `logic_type` is `IMMUTABLE` iff that tag is
present. -/
def parse_branch_line (branch_line : String) : ParsedBranch :=
  if pyContains branch_line " ::" then
    let parts := pySplitTags branch_line
    let branch_path := pyStrip (parts.headD "")
    let acc := (parts.drop 1).foldl parseTagStep ([], [])
    let clean_tags := acc.1
    let full_tags := String.intercalate " " clean_tags
    let logic_type := if clean_tags.contains "IMMUTABLE" then "IMMUTABLE" else "MUTABLE"
    ⟨branch_path, clean_tags, full_tags, logic_type, acc.2⟩
  else
    ⟨pyStrip branch_line, [], "MUTABLE", "MUTABLE", []⟩

/-- A branch line carries a tag iff the tag token appears among the parsed
`clean_tags` of `parse_branch_line`. -/
def carriesTag (branch_line tag : String) : Bool :=
  (parse_branch_line branch_line).clean_tags.contains tag

/-! ## The guard gate (src/glacier.py, `is_action_permitted`) -/

/-- The denial message returned by the guard. -/
def lockedMsg : String :=
  "Branch is LOCKED. Remove ::LOCKED from tree.txt to modify or mirror."

/-- Embedding of `is_action_permitted` (src/glacier.py:2966-2986): extract
the tag tokens following `" ::"` separators, upper-case them, and deny the
four mutating actions when `LOCKED` is present. -/
def is_action_permitted (branch_line action : String) : Bool × Option String :=
  let tags := ((pySplitTags branch_line).drop 1).map fun t => pyUpper (pyStrip t)
  let is_locked := tags.contains "LOCKED"
  let restricted_actions := ["MIRROR", "FORCE", "DELETE", "REPACK"]
  if is_locked && restricted_actions.contains action then
    (false, some lockedMsg)
  else
    (true, none)

/-! ## Decimal rendering and parsing of bag identifiers

The code writes identifiers with `f"bag_{n:05d}"` and parses them back via
`int(tid.split('_')[-1])` guarded by `tid.startswith('bag_')`.  The decimal
machinery is defined with explicit fuel so the kernel evaluates it. -/

/-- The decimal digit characters. -/
def digitChar (d : Nat) : Char :=
  if d = 0 then '0' else if d = 1 then '1' else if d = 2 then '2'
  else if d = 3 then '3' else if d = 4 then '4' else if d = 5 then '5'
  else if d = 6 then '6' else if d = 7 then '7' else if d = 8 then '8'
  else '9'

/-- Little-endian decimal digits of `n`, with fuel (`fuel ≥ n` suffices). -/
def natDigitsRev : Nat → Nat → List Nat
  | 0, _ => []
  | fuel + 1, n => if n = 0 then [] else n % 10 :: natDigitsRev fuel (n / 10)

/-- Big-endian decimal character rendering of `n` (empty for `0`;
the zero-padding below restores the `"00000"` rendering of `0`). -/
def decimalChars (n : Nat) : List Char :=
  ((natDigitsRev n n).map digitChar).reverse

/-- Python `f"bag_{n:05d}"`: the bag identifier for counter `n`. -/
def mkBagId (n : Nat) : String :=
  ⟨"bag_".data ++ List.replicate (5 - (decimalChars n).length) '0' ++ decimalChars n⟩

/-- Little-endian value of a digit list (verification helper used to
reason about the decimal rendering). -/
def ofDigitsLE : List Nat → Nat
  | [] => 0
  | d :: ds => d + 10 * ofDigitsLE ds

/-- Value of a decimal digit character, `none` for anything else. -/
def charDigit (c : Char) : Option Nat :=
  if c = '0' then some 0 else if c = '1' then some 1 else if c = '2' then some 2
  else if c = '3' then some 3 else if c = '4' then some 4 else if c = '5' then some 5
  else if c = '6' then some 6 else if c = '7' then some 7 else if c = '8' then some 8
  else if c = '9' then some 9 else none

/-- Python `int(s)` restricted to non-empty all-digit strings, the only
form this program ever writes for bag numbers (`int` additionally accepts
signs and whitespace, which no identifier produced here contains; any
other input raises `ValueError`, i.e. `none`). -/
def pyIntDigits (l : List Char) : Option Nat :=
  if l.isEmpty then none
  else l.foldl (fun acc c =>
    match acc, charDigit c with
    | some a, some d => some (a * 10 + d)
    | _, _ => none) (some 0)

/-- Big-endian value of a digit character list (verification helper). -/
def valDigits (l : List Char) : Nat :=
  l.foldl (fun a c => a * 10 + ((charDigit c).getD 0)) 0

/-- Embedding of the id parse in `assign_bags_to_leaves`:
`int(tid.split('_')[-1])` when `tid` is truthy and starts with `"bag_"`,
skipping entries that raise `ValueError`. -/
def bagNumOfTid (tid : String) : Option Nat :=
  if pyStarts tid "bag_" then
    pyIntDigits ((splitChar '_' tid.data).getLastD [])
  else none

/-! ## Catalog data model (src/glacier.py)

A leaf entry is the dict written by `scan_and_update_inventory` and later
mutated by `commit_to_inventory` and the packer.  The display-only
`size_human` field (a human-readable rendering of `size_bytes`) is omitted.
`etag` is `none` until a commit writes it. -/

structure LeafEntry where
  last_metadata_hash : String
  needs_upload : Bool
  size_bytes : Nat
  tar_id : Option String
  archive_key : Option String
  last_upload : Option String
  etag : Option String
  deriving Repr, DecidableEq

/-- A leaf found by `identify_leaves`: its stable key, its path, whether it
is the synthetic branch-root leaf, and the loose files it bundles. -/
structure ScanLeaf where
  key : String
  path : String
  is_branch_root : Bool
  files : List String
  deriving Repr, DecidableEq

/-- The per-leaf record fed to the packer (`leaf.copy()` plus `size` and
`tar_id` in `scan_and_update_inventory`). -/
structure LeafToBag where
  key : String
  path : String
  is_branch_root : Bool
  files : List String
  size : Nat
  tar_id : Option String
  deriving Repr, DecidableEq

/-- One branch of the catalog: `{"leaves": {...}, "last_scan": ...}`. -/
structure BranchData where
  leaves : List (String × LeafEntry)
  last_scan : Option String
  deriving Repr, DecidableEq

/-- The catalog: `{"branches": {branch_line: BranchData}}`. -/
structure Inventory where
  branches : List (String × BranchData)
  deriving Repr, DecidableEq

/-- Association-list lookup (Python `dict.get(key)` / `key in dict`). -/
def alookup : List (String × α) → String → Option α
  | [], _ => none
  | (k, v) :: rest, key => if k = key then some v else alookup rest key

/-- Association-list store (Python `dict[key] = v`): update in place,
preserving insertion order, appending when the key is new. -/
def aupdate : List (String × α) → String → α → List (String × α)
  | [], key, v => [(key, v)]
  | (k, w) :: rest, key, v =>
    if k = key then (k, v) :: rest else (k, w) :: aupdate rest key v

/-! ## Scan (src/glacier.py, `scan_and_update_inventory`, lines 1240-1278) -/

/-- The catalog entry written by one iteration of the scan loop, as a
function of the pre-existing entry (`entry = branch_leaves.get(key, {})`),
the freshly computed hash and size, and the repack flag.  `tar_id` is
carried over unchanged (`existing_tid`); `archive_key` is dropped when the
hash changed; `needs_upload` follows the code exactly: `True` on repack,
else `is_changed or entry.get("needs_upload", True)`. -/
def scanEntry (entry : Option LeafEntry) (current_hash : String) (size : Nat)
    (is_repack : Bool) : LeafEntry :=
  let existing_tid := entry.bind (·.tar_id)
  let existing_key := entry.bind (·.archive_key)
  let is_changed := (entry.map (·.last_metadata_hash)) != some current_hash
  let needs_upload := if is_repack then true
    else is_changed || ((entry.map (·.needs_upload)).getD true)
  let archive_key := if is_changed then none else existing_key
  { last_metadata_hash := current_hash
    needs_upload := needs_upload
    size_bytes := size
    tar_id := existing_tid
    archive_key := archive_key
    last_upload := entry.bind (·.last_upload)
    etag := none }

/-- One iteration of the scan loop: compute the metadata hash and size for
the leaf (the hash function is abstracted as a parameter since it reads
the file system), rewrite the catalog entry, and emit the
`leaves_to_bag` record (`leaf.copy()` plus `size` and `tar_id`). -/
def scanStep (metaHash : ScanLeaf → String × Nat) (is_repack : Bool)
    (bl : List (String × LeafEntry)) (leaf : ScanLeaf) :
    List (String × LeafEntry) × LeafToBag :=
  let current_hash := (metaHash leaf).1
  let size := (metaHash leaf).2
  let entry := alookup bl leaf.key
  (aupdate bl leaf.key (scanEntry entry current_hash size is_repack),
   { key := leaf.key, path := leaf.path, is_branch_root := leaf.is_branch_root
     files := leaf.files, size := size, tar_id := entry.bind (·.tar_id) })

/-- Embedding of `scan_and_update_inventory` (lines 1240-1278): iterate
`scanStep` over the found leaves, collecting `leaves_to_bag` in order. -/
def scan_and_update_inventory (metaHash : ScanLeaf → String × Nat) :
    List ScanLeaf → List (String × LeafEntry) → Bool →
    List (String × LeafEntry) × List LeafToBag
  | [], bl, _ => (bl, [])
  | leaf :: rest, bl, is_repack =>
    let r := scanStep metaHash is_repack bl leaf
    let rr := scan_and_update_inventory metaHash rest r.1 is_repack
    (rr.1, r.2 :: rr.2)

/-! ## Bag packer (src/glacier.py, `assign_bags_to_leaves`, lines 1281-1344) -/

/-- Python truthiness of an optional string (`None` and `""` are falsy). -/
def pyTruthyStr : Option String → Bool
  | none => false
  | some t => !(t == "")

/-- Bag numbers parsed from the `tar_id` fields of a leaves map, exactly
as the packer collects them (skip falsy ids, ids without the `bag_`
marker, and unparsable suffixes). -/
def collectBagNums (leaves : List (String × LeafEntry)) : List Nat :=
  leaves.filterMap fun kv =>
    match kv.2.tar_id with
    | some tid => if pyTruthyStr (some tid) then bagNumOfTid tid else none
    | none => none

/-- All bag numbers across the entire catalog. -/
def globalBagNums (inv : Inventory) : List Nat :=
  (inv.branches.map fun kv => collectBagNums kv.2.leaves).flatten

/-- Python `max(l)` for a list of naturals with an `else d` fallback; for
a non-empty `l` the fold equals `max(l)` since all elements are `≥ 0`. -/
def pyMaxNatD (l : List Nat) (d : Nat) : Nat :=
  l.foldl max d

/-- Standard-mode initialization of the bag counter:
`max(existing_bag_nums) if existing_bag_nums else 0`, then `+ 1` when this
branch has no bags of its own, else the branch's own maximum. -/
def standardInitCounter (inv : Inventory) (branch_leaves : List (String × LeafEntry)) : Nat :=
  let existing_bag_nums := globalBagNums inv
  let c := pyMaxNatD existing_bag_nums 0
  let branch_bag_nums := collectBagNums branch_leaves
  if branch_bag_nums.isEmpty then c + 1 else pyMaxNatD branch_bag_nums 0

/-- Standard-mode initialization of `current_bag_size`: the sum of
`size_bytes` over this branch's entries already assigned to the current
last bag id. -/
def standardInitSize (branch_leaves : List (String × LeafEntry)) (bag_counter : Nat) : Nat :=
  let last_bag_id := mkBagId bag_counter
  branch_leaves.foldl
    (fun s kv => if kv.2.tar_id = some last_bag_id then s + kv.2.size_bytes else s) 0

/-- `branch_leaves[key]["tar_id"] = new_tid`.  The key is always present
when called (the scan has just written every leaf's entry); on an absent
key Python would raise `KeyError`, embedded here as a no-op. -/
def setTid : List (String × LeafEntry) → String → String → List (String × LeafEntry)
  | [], _, _ => []
  | (k, e) :: rest, key, tid =>
    if k = key then (k, { e with tar_id := some tid }) :: rest
    else (k, e) :: setTid rest key tid

/-- The packing loop of `assign_bags_to_leaves` (lines 1327-1344): skip
reserved seats in standard mode; otherwise advance the counter when the
leaf would overflow a non-empty bag, then assign `bag_<counter>` to the
leaf and to its catalog entry.  Returns the processed leaves in order, the
final counter, the final bag size, and the updated branch leaves. -/
def assignLoop (T : Nat) (is_repack : Bool) :
    List LeafToBag → Nat → Nat → List (String × LeafEntry) →
    List LeafToBag × Nat × Nat × List (String × LeafEntry)
  | [], c, s, bl => ([], c, s, bl)
  | leaf :: rest, c, s, bl =>
    if !is_repack && pyTruthyStr leaf.tar_id then
      let r := assignLoop T is_repack rest c s bl
      (leaf :: r.1, r.2)
    else
      let advance := s + leaf.size > T ∧ s > 0
      let c' := if advance then c + 1 else c
      let s' := if advance then 0 else s
      let new_tid := mkBagId c'
      let leaf' := { leaf with tar_id := some new_tid }
      let bl' := setTid bl leaf.key new_tid
      let r := assignLoop T is_repack rest c' (s' + leaf.size) bl'
      (leaf' :: r.1, r.2)

/-- The list the packing loop iterates over: in repack mode every leaf's
seat assignment is first cleared (`leaf["tar_id"] = None`). -/
def packerInputLeaves (leaves_to_bag : List LeafToBag) (is_repack : Bool) :
    List LeafToBag :=
  if is_repack then leaves_to_bag.map fun l => { l with tar_id := none }
  else leaves_to_bag

/-- Embedding of `assign_bags_to_leaves`.  `T` is the configured
`TARGET_SIZE_BYTES`.  In repack mode every leaf's seat is cleared and the
counter restarts at `1`; in standard mode the counter continues the
branch's last bag (or takes global-max `+ 1` for a branch with no bags)
and `current_bag_size` starts at the last bag's already-assigned volume. -/
def assign_bags_to_leaves (T : Nat) (leaves_to_bag : List LeafToBag)
    (inv : Inventory) (branch_leaves : List (String × LeafEntry))
    (is_repack : Bool) :
    List LeafToBag × Nat × Nat × List (String × LeafEntry) :=
  if is_repack then
    assignLoop T true (packerInputLeaves leaves_to_bag true) 1 0 branch_leaves
  else
    let bag_counter := standardInitCounter inv branch_leaves
    let current_bag_size := standardInitSize branch_leaves bag_counter
    assignLoop T false leaves_to_bag bag_counter current_bag_size branch_leaves

/-- The bag ids the packing loop assigned: position-wise over the input it
saw (`packerInputLeaves`) and its output, the new `tar_id` of every leaf
that was not skipped as a reserved seat. -/
def loopAssignedTids (is_repack : Bool) (input output : List LeafToBag) :
    List String :=
  (input.zip output).filterMap fun p =>
    if is_repack || !(pyTruthyStr p.1.tar_id) then p.2.tar_id else none

/-- The total volume the packing loop actually places: the sizes of the
leaves that are not skipped as reserved seats. -/
def assignedVolume (is_repack : Bool) (leaves : List LeafToBag) : Nat :=
  ((leaves.filter fun l => is_repack || !(pyTruthyStr l.tar_id)).map (·.size)).sum

/-! ## JSON values

The catalog is persisted as JSON (`json.dump` / `json.load`).  `JVal`
models a parsed JSON document; the standalone pruner operates on the
loaded document, so its reads are embedded directly over `JVal`. -/

inductive JVal where
  | jnull
  | jstr (s : String)
  | jnum (n : Int)
  | jbool (b : Bool)
  | jarr (xs : List JVal)
  | jobj (fields : List (String × JVal))

/-- JSON encoding of an optional string (`None` becomes `null`). -/
def optStrJ : Option String → JVal
  | none => .jnull
  | some s => .jstr s

/-- JSON encoding of a catalog leaf entry as written by the engine.  The
`etag` key is written by `commit_to_inventory` and absent before the first
commit; it is rendered unconditionally here (with `null` before a commit),
which no claim observes. -/
def leafEntryToJVal (e : LeafEntry) : JVal :=
  .jobj [("last_metadata_hash", .jstr e.last_metadata_hash),
         ("needs_upload", .jbool e.needs_upload),
         ("size_bytes", .jnum e.size_bytes),
         ("tar_id", optStrJ e.tar_id),
         ("archive_key", optStrJ e.archive_key),
         ("last_upload", optStrJ e.last_upload),
         ("etag", optStrJ e.etag)]

/-- JSON encoding of a branch: `{"leaves": {...}, "last_scan": ...}`. -/
def branchDataToJVal (b : BranchData) : JVal :=
  .jobj [("leaves", .jobj (b.leaves.map fun kv => (kv.1, leafEntryToJVal kv.2))),
         ("last_scan", optStrJ b.last_scan)]

/-- JSON encoding of the whole catalog: the engine writes a single
top-level key `"branches"` (src/glacier.py:1101-1103, 2059-2080). -/
def inventoryToJVal (inv : Inventory) : JVal :=
  .jobj [("branches", .jobj (inv.branches.map fun kv => (kv.1, branchDataToJVal kv.2)))]

/-! ## Catalog commit (src/glacier.py, `commit_to_inventory`, lines 1049-1072) -/

/-- A file-system effect performed by the engine: a direct write of a
serialized JSON document to a path, or an atomic rename. -/
inductive FsEff where
  | write (path : String) (content : JVal)
  | rename (src dst : String)

/-- Apply an update to the leaves map of one branch of the catalog
(`branch_leaves` in the code is an alias into
`inventory["branches"][branch_line]["leaves"]`). -/
def updateBranchLeaves (inv : Inventory) (branch_line : String)
    (f : List (String × LeafEntry) → List (String × LeafEntry)) : Inventory :=
  ⟨inv.branches.map fun kv =>
    if kv.1 = branch_line then (kv.1, ⟨f kv.2.leaves, kv.2.last_scan⟩) else kv⟩

/-- Embedding of `commit_to_inventory`: for each committed leaf present in
the branch's leaves, set `needs_upload` to `False`, stamp `last_upload`
(the wall-clock timestamp is abstracted as `now`), and record the `etag`;
then, on a live run, serialize the updated in-memory inventory and write
it directly to the canonical `INVENTORY_FILE` (`open(INVENTORY_FILE,'w')`
followed by `json.dump`; any write error is caught and reported as a
warning).  The returned effect list is the file-system trace of the
commit. -/
def commit_to_inventory (leaf_list : List LeafToBag) (inv : Inventory)
    (branch_line : String) (is_live : Bool) (now : String)
    (etag : Option String) (inventory_file : String) :
    Inventory × List FsEff :=
  let inv' := leaf_list.foldl
    (fun acc leaf =>
      updateBranchLeaves acc branch_line fun bl =>
        match alookup bl leaf.key with
        | some e => aupdate bl leaf.key
            { e with needs_upload := false, last_upload := some now, etag := etag }
        | none => bl)
    inv
  (inv', if is_live then [FsEff.write inventory_file (inventoryToJVal inv')] else [])

/-! ## The standalone pruner (src/prune.py, `main`, lines 41-67) -/

/-- The pruner's whitelist: every `archive_key` found under
`inventory['molecular_sources'][*]['atomic_units'][*]`, kept when truthy.
Both programs only ever store strings under `archive_key`, so the
embedding collects string values (a non-string value could never equal an
S3 key string in the later membership test). -/
def prune_live_bags (inv : JVal) : List String :=
  match inv with
  | .jobj fields =>
    match alookup fields "molecular_sources" with
    | some (.jobj sources) =>
      sources.foldl
        (fun acc kv =>
          match kv.2 with
          | .jobj sf =>
            match alookup sf "atomic_units" with
            | some (.jobj atoms) =>
              atoms.foldl
                (fun acc2 kv2 =>
                  match kv2.2 with
                  | .jobj af =>
                    match alookup af "archive_key" with
                    | some (.jstr s) => if s = "" then acc2 else acc2 ++ [s]
                    | _ => acc2
                  | _ => acc2)
                acc
            | _ => acc
          | _ => acc)
        []
    | _ => []
  | _ => []

/-- The pruner's candidate set: bucket keys ending in `.tar` that are
outside the `system/` and `manifests/` prefixes. -/
def pruneTarCandidates (bucket_keys : List String) : List String :=
  bucket_keys.filter fun k =>
    pyEnds k ".tar" && !pyContains k "/system/" && !pyContains k "/manifests/"

/-- The pruner's classification: every candidate key not in the whitelist
is obsolete. -/
def prune_obsolete_keys (inv : JVal) (bucket_keys : List String) : List String :=
  let live_bags := prune_live_bags inv
  (pruneTarCandidates bucket_keys).filter fun k => !live_bags.contains k

/-! ## Encryption validation (src/glacier.py, `validate_encryption_config`,
lines 1703-1731) and the tree-file line filter (lines 3917-3918) -/

/-- Embedding of `validate_encryption_config`.  `tree_content` is the raw
text of the tree file (`none` when the file does not exist); the key file
is abstracted by its existence and byte size.  The code decides that
encryption is required by a literal substring test `"::ENCRYPT" in
f.read()` on the raw file contents; when required and the key file is
missing or empty it exits with status 1 (`Except.error`), otherwise it
returns the passphrase path (`some`) or `none` when no encryption is
required. -/
def validate_encryption_config (tree_content : Option String)
    (key_exists : Bool) (key_size : Nat) : Except Unit (Option String) :=
  let needs_crypto :=
    match tree_content with
    | some content => pyContains content "::ENCRYPT"
    | none => false
  if needs_crypto then
    if !key_exists || key_size == 0 then .error ()
    else .ok (some "key.txt")
  else .ok none

/-- The tree-file lines processed by the engine: physical lines whose
stripped form is non-empty and which do not start with `#` (the filter
inspects the unstripped line for the comment marker), returned stripped. -/
def treeLines (content : String) : List String :=
  ((pySplitChar '\n' content).filter fun line =>
      !(pyStrip line == "") && !pyStarts line "#").map pyStrip

/-! ## Helper lemmas -/

lemma pyUpper_locked_length {s : String} (h : pyUpper s = "LOCKED") :
    s.data.length = 6 := by
  have hm : s.data.map Char.toUpper = "LOCKED".data := congrArg String.data h
  have hl : (s.data.map Char.toUpper).length = 6 := by rw [hm]; rfl
  simpa using hl

lemma pyStarts_length_le {s p : String} (h : pyStarts s p = true) :
    p.data.length ≤ s.data.length := by
  simp only [pyStarts] at h
  exact (List.isPrefixOf_iff_prefix.mp h).length_le

lemma not_exclude_of_upper_locked {s : String} (h : pyUpper s = "LOCKED") :
    pyStarts s "EXCLUDE " = false := by
  cases hp : pyStarts s "EXCLUDE " with
  | false => rfl
  | true =>
    exfalso
    have h8 : ("EXCLUDE " : String).data.length ≤ s.data.length := pyStarts_length_le hp
    have e8 : ("EXCLUDE " : String).data.length = 8 := rfl
    have h6 := pyUpper_locked_length h
    omega

lemma parseTag_foldl (parts : List String) (acc : List String × List String) :
    (parts.foldl parseTagStep acc).1
      = acc.1 ++ parts.filterMap (fun p =>
          if pyStarts (pyStrip p) "EXCLUDE " then none
          else some (pyUpper (pyStrip p))) := by
  induction parts generalizing acc with
  | nil => simp
  | cons p ps ih =>
    rw [List.foldl_cons, ih, List.filterMap_cons]
    by_cases hp : pyStarts (pyStrip p) "EXCLUDE " = true
    · simp [parseTagStep, hp]
    · simp only [Bool.not_eq_true] at hp
      simp [parseTagStep, hp]

lemma splitTagSep_of_not_contains {l : List Char}
    (h : l.tails.any (fun t => [' ', ':', ':'].isPrefixOf t) = false) :
    splitTagSep l = [l] := by
  induction l with
  | nil => rfl
  | cons c rest ih =>
    rw [List.tails_cons, List.any_cons, Bool.or_eq_false_iff] at h
    obtain ⟨h1, h2⟩ := h
    have ihr := ih h2
    rw [splitTagSep.eq_def]
    split
    · rename_i r heq
      exfalso
      injection heq with hc hr
      subst hc
      rw [hr] at h1
      simp [List.isPrefixOf] at h1
    · rename_i x c' rest' hno heq
      injection heq with hc hr
      subst hc
      subst hr
      rw [ihr]
    · rename_i heq
      exact absurd heq (by simp)

lemma pyContains_false_split {line : String} (h : pyContains line " ::" = false) :
    pySplitTags line = [line] := by
  unfold pySplitTags
  rw [splitTagSep_of_not_contains (by simpa [pyContains] using h)]
  rfl

lemma contains_locked_iff (line : String) :
    (((pySplitTags line).drop 1).map fun t => pyUpper (pyStrip t)).contains "LOCKED"
      = carriesTag line "LOCKED" := by
  by_cases hc : pyContains line " ::" = true
  · simp only [carriesTag, parse_branch_line, if_pos hc]
    rw [parseTag_foldl]
    simp only [List.nil_append]
    rw [Bool.eq_iff_iff]
    simp only [List.elem_iff, List.mem_map, List.mem_filterMap]
    constructor
    · rintro ⟨p, hp, hup⟩
      exact ⟨p, hp, by rw [not_exclude_of_upper_locked hup]; simpa using hup⟩
    · rintro ⟨p, hp, hsome⟩
      by_cases hex : pyStarts (pyStrip p) "EXCLUDE " = true
      · rw [if_pos hex] at hsome; cases hsome
      · simp only [Bool.not_eq_true] at hex
        rw [hex] at hsome
        simp only [if_neg Bool.false_ne_true] at hsome
        exact ⟨p, hp, by simpa using hsome⟩
  · simp only [Bool.not_eq_true] at hc
    simp only [carriesTag, parse_branch_line, hc]
    rw [pyContains_false_split hc]
    rfl

lemma alookup_aupdate_self (l : List (String × α)) (k : String) (v : α) :
    alookup (aupdate l k v) k = some v := by
  induction l with
  | nil => simp [aupdate, alookup]
  | cons kv rest ih =>
    obtain ⟨k', w⟩ := kv
    by_cases h : k' = k
    · subst h; simp [aupdate, alookup]
    · simp [aupdate, alookup, h, ih]

lemma alookup_aupdate_ne (l : List (String × α)) (k k' : String) (v : α)
    (h : k' ≠ k) : alookup (aupdate l k' v) k = alookup l k := by
  induction l with
  | nil => simp [aupdate, alookup, h]
  | cons kv rest ih =>
    obtain ⟨k'', w⟩ := kv
    by_cases h2 : k'' = k'
    · subst h2; simp [aupdate, alookup, h]
    · simp [aupdate, alookup, h2, ih]

/-- A scan over leaves whose keys all differ from `k` leaves the catalog
entry at `k` unchanged. -/
lemma scan_preserves_other (mh : ScanLeaf → String × Nat)
    (rest : List ScanLeaf) (bl : List (String × LeafEntry)) (rp : Bool)
    (k : String) (hk : ∀ l ∈ rest, l.key ≠ k) :
    alookup (scan_and_update_inventory mh rest bl rp).1 k = alookup bl k := by
  induction rest generalizing bl with
  | nil => rfl
  | cons l rest ih =>
    simp only [scan_and_update_inventory]
    rw [ih _ fun l' hl' => hk l' (List.mem_cons_of_mem _ hl')]
    exact alookup_aupdate_ne _ _ _ _ (hk l (List.mem_cons_self _ _))

/-! ## Claim theorems: guard and pruner -/

/-- Claim C6: for every branch line and every action among MIRROR, FORCE,
DELETE and REPACK, the guard denies the action with the remove-LOCKED
message exactly when the branch line carries the LOCKED tag, and allows it
(with no reason) otherwise. -/
theorem guard_locked_policy (branch_line action : String)
    (h : action ∈ ["MIRROR", "FORCE", "DELETE", "REPACK"]) :
    (is_action_permitted branch_line action = (false, some lockedMsg)
      ↔ carriesTag branch_line "LOCKED" = true)
    ∧ (is_action_permitted branch_line action = (true, none)
      ↔ carriesTag branch_line "LOCKED" = false) := by
  have hmem : (["MIRROR", "FORCE", "DELETE", "REPACK"].contains action) = true := by
    simpa [List.elem_iff] using h
  simp only [is_action_permitted]
  rw [contains_locked_iff]
  by_cases hl : carriesTag branch_line "LOCKED" = true
  · simp [hl, hmem]
    intro h1 h2 h3
    simp only [List.mem_cons, List.not_mem_nil, or_false] at h
    tauto
  · simp only [Bool.not_eq_true] at hl
    simp [hl]

/-- Witness for C6 at a concrete LOCKED branch line and the MIRROR action. -/
theorem guard_locked_policy_witness :
    is_action_permitted "/data/alpha :: MUTABLE :: LOCKED" "MIRROR"
      = (false, some lockedMsg) :=
  (guard_locked_policy "/data/alpha :: MUTABLE :: LOCKED" "MIRROR"
    (by decide)).1.mpr (by decide)

/-- Claim C10: the engine's catalog has the shape
`{"branches": {line: {"leaves": ...}}}` while the pruner whitelists bags
from `inventory['molecular_sources'][*]['atomic_units'][*]['archive_key']`;
those keys never exist in an engine catalog, so the whitelist is empty and
every `.tar` key outside the `system/` and `manifests/` prefixes is
classified as obsolete. -/
theorem prune_schema_mismatch (inv : Inventory) (bucket_keys : List String) :
    prune_live_bags (inventoryToJVal inv) = []
    ∧ prune_obsolete_keys (inventoryToJVal inv) bucket_keys
        = bucket_keys.filter (fun k =>
            pyEnds k ".tar" && !pyContains k "/system/"
              && !pyContains k "/manifests/") := by
  have h1 : prune_live_bags (inventoryToJVal inv) = [] := rfl
  refine ⟨h1, ?_⟩
  unfold prune_obsolete_keys pruneTarCandidates
  rw [h1]
  simp

/-! ## Claim theorem: needs_upload discipline (C5) -/

lemma scanEntry_needs_upload_iff (entry : Option LeafEntry) (h : String)
    (size : Nat) (rp : Bool) :
    (scanEntry entry h size rp).needs_upload = true ↔
      (entry = none
       ∨ (∃ e0, entry = some e0 ∧ e0.last_metadata_hash ≠ h)
       ∨ (∃ e0, entry = some e0 ∧ e0.needs_upload = true)
       ∨ rp = true) := by
  cases rp with
  | true => simp [scanEntry]
  | false =>
    cases entry with
    | none => simp [scanEntry]
    | some e0 => simp [scanEntry, bne_iff_ne]

/-- Claim C5: after a scan updates the catalog entry for a leaf,
`needs_upload` is true iff the leaf is new (no prior catalog entry), or
its fingerprint changed since the last scan, or its prior upload did not
complete (`needs_upload` still true in the catalog), or the run is a
forced repack. -/
theorem scan_needs_upload_iff (mh : ScanLeaf → String × Nat)
    (found_leaves : List ScanLeaf) (bl : List (String × LeafEntry)) (rp : Bool)
    (hnd : (found_leaves.map (·.key)).Nodup) (leaf : ScanLeaf)
    (hmem : leaf ∈ found_leaves) :
    ∃ e : LeafEntry,
      alookup (scan_and_update_inventory mh found_leaves bl rp).1 leaf.key = some e
      ∧ (e.needs_upload = true ↔
          (alookup bl leaf.key = none
           ∨ (∃ e0, alookup bl leaf.key = some e0
                ∧ e0.last_metadata_hash ≠ (mh leaf).1)
           ∨ (∃ e0, alookup bl leaf.key = some e0 ∧ e0.needs_upload = true)
           ∨ rp = true)) := by
  induction found_leaves generalizing bl with
  | nil => cases hmem
  | cons l rest ih =>
    rw [List.map_cons, List.nodup_cons] at hnd
    obtain ⟨hknot, hnd'⟩ := hnd
    rcases List.mem_cons.mp hmem with rfl | hmem'
    · simp only [scan_and_update_inventory]
      rw [scan_preserves_other]
      · simp only [scanStep]
        rw [alookup_aupdate_self]
        exact ⟨_, rfl, scanEntry_needs_upload_iff _ _ _ _⟩
      · intro l' hl' hkeq
        exact hknot (hkeq ▸ List.mem_map_of_mem (·.key) hl')
    · have hkne : l.key ≠ leaf.key := by
        intro he
        exact hknot (he ▸ List.mem_map_of_mem (·.key) hmem')
      have heq : alookup (scanStep mh rp bl l).1 leaf.key = alookup bl leaf.key := by
        simp only [scanStep]
        exact alookup_aupdate_ne _ _ _ _ hkne
      have hrec := ih (scanStep mh rp bl l).1 hnd' hmem'
      rw [heq] at hrec
      simpa only [scan_and_update_inventory] using hrec

/-- Witness for C5: a re-scanned leaf whose hash changed from `h1` to
`h2`, with a completed prior upload, in standard mode. -/
theorem scan_needs_upload_iff_witness :
    ∃ e : LeafEntry,
      alookup (scan_and_update_inventory (fun _ => ("h2", 5))
          [⟨"k", "p", false, []⟩]
          [("k", ⟨"h1", false, 4, some "bag_00001", some "ak", none, none⟩)]
          false).1 "k" = some e
      ∧ (e.needs_upload = true ↔
          (alookup [("k", (⟨"h1", false, 4, some "bag_00001", some "ak", none,
              none⟩ : LeafEntry))] "k" = none
           ∨ (∃ e0, alookup [("k", (⟨"h1", false, 4, some "bag_00001", some "ak",
                none, none⟩ : LeafEntry))] "k" = some e0
                ∧ e0.last_metadata_hash ≠ "h2")
           ∨ (∃ e0, alookup [("k", (⟨"h1", false, 4, some "bag_00001", some "ak",
                none, none⟩ : LeafEntry))] "k" = some e0 ∧ e0.needs_upload = true)
           ∨ false = true)) := by
  have := scan_needs_upload_iff (fun _ => ("h2", 5))
    [⟨"k", "p", false, []⟩]
    [("k", ⟨"h1", false, 4, some "bag_00001", some "ak", none, none⟩)]
    false (by simp) ⟨"k", "p", false, []⟩ (List.mem_singleton.mpr rfl)
  simpa using this

/-! ## Decimal rendering lemmas and injectivity of bag identifiers -/

lemma ofDigitsLE_natDigitsRev (fuel : Nat) : ∀ n : Nat, n ≤ fuel →
    ofDigitsLE (natDigitsRev fuel n) = n := by
  induction fuel with
  | zero =>
    intro n hn
    interval_cases n
    rfl
  | succ f ih =>
    intro n hn
    by_cases hz : n = 0
    · subst hz; rfl
    · have hlt : n / 10 < n := Nat.div_lt_self (by omega) (by omega)
      simp only [natDigitsRev, if_neg hz, ofDigitsLE]
      rw [ih (n / 10) (by omega)]
      exact Nat.mod_add_div n 10

lemma natDigitsRev_lt_ten (fuel : Nat) : ∀ n : Nat, ∀ d ∈ natDigitsRev fuel n, d < 10 := by
  induction fuel with
  | zero => intro n d hd; simp [natDigitsRev] at hd
  | succ f ih =>
    intro n d hd
    by_cases hz : n = 0
    · subst hz; simp [natDigitsRev] at hd
    · simp only [natDigitsRev, if_neg hz, List.mem_cons] at hd
      rcases hd with rfl | hd
      · exact Nat.mod_lt _ (by omega)
      · exact ih _ _ hd

lemma charDigit_digitChar {d : Nat} (h : d < 10) : charDigit (digitChar d) = some d := by
  interval_cases d <;> rfl

lemma valDigits_replicate_zero_append (k : Nat) (l : List Char) :
    valDigits (List.replicate k '0' ++ l) = valDigits l := by
  unfold valDigits
  rw [List.foldl_append]
  have hz : List.foldl (fun a c => a * 10 + ((charDigit c).getD 0)) 0
      (List.replicate k '0') = 0 := by
    induction k with
    | zero => rfl
    | succ j ihj => simpa [List.replicate_succ] using ihj
  rw [hz]

lemma valDigits_rev_map (ds : List Nat) (hds : ∀ d ∈ ds, d < 10) : ∀ a : Nat,
    ((ds.map digitChar).reverse).foldl (fun a c => a * 10 + ((charDigit c).getD 0)) a
      = a * 10 ^ ds.length + ofDigitsLE ds := by
  induction ds with
  | nil => intro a; simp [ofDigitsLE]
  | cons d ds ih =>
    intro a
    rw [List.map_cons, List.reverse_cons, List.foldl_append,
      ih (fun x hx => hds x (List.mem_cons_of_mem _ hx))]
    have hd10 := charDigit_digitChar (hds d (List.mem_cons_self _ _))
    simp only [List.foldl_cons, List.foldl_nil, hd10, Option.getD_some, ofDigitsLE,
      List.length_cons]
    ring

lemma valDigits_decimalChars (n : Nat) : valDigits (decimalChars n) = n := by
  unfold valDigits decimalChars
  rw [valDigits_rev_map _ (natDigitsRev_lt_ten n n) 0]
  simp [ofDigitsLE_natDigitsRev n n le_rfl]

lemma mkBagId_inj {m n : Nat} (h : mkBagId m = mkBagId n) : m = n := by
  have hd : "bag_".data ++ (List.replicate (5 - (decimalChars m).length) '0'
        ++ decimalChars m)
      = "bag_".data ++ (List.replicate (5 - (decimalChars n).length) '0'
        ++ decimalChars n) := by
    simpa [mkBagId] using congrArg String.data h
  have h2 := List.append_cancel_left hd
  have hm := congrArg valDigits h2
  rwa [valDigits_replicate_zero_append, valDigits_replicate_zero_append,
    valDigits_decimalChars, valDigits_decimalChars] at hm

/-! ## Packing-loop lemmas -/

/-- The loop emits one output leaf per input leaf. -/
lemma assignLoop_length (T : Nat) (rp : Bool) : ∀ (leaves : List LeafToBag)
    (c s : Nat) (bl : List (String × LeafEntry)),
    (assignLoop T rp leaves c s bl).1.length = leaves.length := by
  intro leaves
  induction leaves with
  | nil => intro c s bl; rfl
  | cons leaf rest ih =>
    intro c s bl
    simp only [assignLoop]
    by_cases hskip : (!rp && pyTruthyStr leaf.tar_id) = true
    · simp [hskip, ih]
    · simp [hskip, ih]

/-- The bag counter never decreases. -/
lemma assignLoop_counter_le (T : Nat) (rp : Bool) : ∀ (leaves : List LeafToBag)
    (c s : Nat) (bl : List (String × LeafEntry)),
    c ≤ (assignLoop T rp leaves c s bl).2.1 := by
  intro leaves
  induction leaves with
  | nil => intro c s bl; exact le_rfl
  | cons leaf rest ih =>
    intro c s bl
    simp only [assignLoop]
    by_cases hskip : (!rp && pyTruthyStr leaf.tar_id) = true
    · simpa [hskip] using ih c s bl
    · simp only [hskip, if_false, Bool.false_eq_true]
      by_cases hadv : (T < s + leaf.size ∧ 0 < s)
      · simp only [if_pos hadv]
        exact le_trans (Nat.le_succ c) (ih (c + 1) _ _)
      · simp only [if_neg hadv]
        exact ih c _ _

/-- Every id the loop assigns is `bag_<k>` for a counter value `k` between
the initial and the final counter. -/
lemma assignLoop_assigned_mem (T : Nat) (rp : Bool) : ∀ (leaves : List LeafToBag)
    (c s : Nat) (bl : List (String × LeafEntry)),
    ∀ tid ∈ loopAssignedTids rp leaves (assignLoop T rp leaves c s bl).1,
      ∃ k, tid = mkBagId k ∧ c ≤ k ∧ k ≤ (assignLoop T rp leaves c s bl).2.1 := by
  intro leaves
  induction leaves with
  | nil => intro c s bl tid htid; simp [loopAssignedTids] at htid
  | cons leaf rest ih =>
    intro c s bl tid htid
    simp only [assignLoop] at htid ⊢
    by_cases hskip : (!rp && pyTruthyStr leaf.tar_id) = true
    · simp only [hskip, if_true] at htid ⊢
      have hcond : (rp || !(pyTruthyStr leaf.tar_id)) = false := by
        cases hrp : rp <;> cases ht : pyTruthyStr leaf.tar_id <;> simp_all
      simp only [loopAssignedTids, List.zip_cons_cons, List.filterMap_cons, hcond,
        Bool.false_eq_true, if_false] at htid
      exact ih c s bl tid htid
    · simp only [hskip, Bool.false_eq_true, if_false] at htid ⊢
      have hcond : (rp || !(pyTruthyStr leaf.tar_id)) = true := by
        cases hrp : rp <;> cases ht : pyTruthyStr leaf.tar_id <;> simp_all
      by_cases hadv : (T < s + leaf.size ∧ 0 < s)
      · simp only [if_pos hadv] at htid ⊢
        simp only [loopAssignedTids, List.zip_cons_cons, List.filterMap_cons, hcond,
          if_true] at htid
        rcases List.mem_cons.mp htid with rfl | hmem
        · exact ⟨c + 1, rfl, Nat.le_succ c, assignLoop_counter_le T rp rest _ _ _⟩
        · obtain ⟨k, hk, hk1, hk2⟩ := ih (c + 1) _ _ tid hmem
          exact ⟨k, hk, le_trans (Nat.le_succ c) hk1, hk2⟩
      · simp only [if_neg hadv] at htid ⊢
        simp only [loopAssignedTids, List.zip_cons_cons, List.filterMap_cons, hcond,
          if_true] at htid
        rcases List.mem_cons.mp htid with rfl | hmem
        · exact ⟨c, rfl, le_rfl, assignLoop_counter_le T rp rest _ _ _⟩
        · exact ih c _ _ tid hmem

/-- Next-fit volume invariant: `(T+1)·advances` is covered by twice the
assigned volume plus the initial bag fill. -/
lemma assignLoop_volume_bound (T : Nat) (rp : Bool) : ∀ (leaves : List LeafToBag)
    (c s : Nat) (bl : List (String × LeafEntry)),
    (T + 1) * (assignLoop T rp leaves c s bl).2.1
        + (assignLoop T rp leaves c s bl).2.2.1
      ≤ (T + 1) * c + 2 * assignedVolume rp leaves + s := by
  intro leaves
  induction leaves with
  | nil => intro c s bl; simp [assignLoop, assignedVolume]
  | cons leaf rest ih =>
    intro c s bl
    simp only [assignLoop]
    by_cases hskip : (!rp && pyTruthyStr leaf.tar_id) = true
    · have hcond : (rp || !(pyTruthyStr leaf.tar_id)) = false := by
        cases hrp : rp <;> cases ht : pyTruthyStr leaf.tar_id <;> simp_all
      have hvol : assignedVolume rp (leaf :: rest) = assignedVolume rp rest := by
        simp [assignedVolume, List.filter_cons, hcond]
      simp only [hskip, if_true, hvol]
      exact ih c s bl
    · have hcond : (rp || !(pyTruthyStr leaf.tar_id)) = true := by
        cases hrp : rp <;> cases ht : pyTruthyStr leaf.tar_id <;> simp_all
      have hvol : assignedVolume rp (leaf :: rest)
          = leaf.size + assignedVolume rp rest := by
        simp [assignedVolume, List.filter_cons, hcond]
      simp only [hskip, Bool.false_eq_true, if_false, hvol]
      by_cases hadv : (T < s + leaf.size ∧ 0 < s)
      · simp only [if_pos hadv]
        have hrec := ih (c + 1) (0 + leaf.size) (setTid bl leaf.key (mkBagId (c + 1)))
        have hexp : (T + 1) * (c + 1) = (T + 1) * c + (T + 1) := by ring
        have hts : T + 1 ≤ s + leaf.size := hadv.1
        rw [hexp] at hrec
        linarith
      · simp only [if_neg hadv]
        have hrec := ih c (s + leaf.size) (setTid bl leaf.key (mkBagId c))
        linarith

/-- In standard mode a reserved-seat leaf passes through the loop
unchanged, at its position. -/
lemma assignLoop_skip_get (T : Nat) : ∀ (leaves : List LeafToBag)
    (c s : Nat) (bl : List (String × LeafEntry)) (i : Nat) (l : LeafToBag),
    leaves.get? i = some l → pyTruthyStr l.tar_id = true →
    (assignLoop T false leaves c s bl).1.get? i = some l := by
  intro leaves
  induction leaves with
  | nil => intro c s bl i l hi; simp at hi
  | cons leaf rest ih =>
    intro c s bl i l hi ht
    cases i with
    | zero =>
      simp only [List.get?] at hi
      injection hi with hi
      subst hi
      simp only [assignLoop, Bool.not_false, ht, Bool.and_self, if_true]
      rfl
    | succ j =>
      simp only [List.get?] at hi
      simp only [assignLoop]
      by_cases hskip : (!false && pyTruthyStr leaf.tar_id) = true
      · simp only [hskip, if_true]
        exact ih c s bl j l hi ht
      · simp only [hskip, Bool.false_eq_true, if_false]
        by_cases hadv : (T < s + leaf.size ∧ 0 < s)
        · simp only [if_pos hadv]
          exact ih _ _ _ j l hi ht
        · simp only [if_neg hadv]
          exact ih _ _ _ j l hi ht

/-- When every leaf has positive size, a positive current bag size stays
positive through the loop. -/
lemma assignLoop_size_pos (T : Nat) (rp : Bool) : ∀ (leaves : List LeafToBag)
    (c s : Nat) (bl : List (String × LeafEntry)),
    (∀ l ∈ leaves, 1 ≤ l.size) → 1 ≤ s →
    1 ≤ (assignLoop T rp leaves c s bl).2.2.1 := by
  intro leaves
  induction leaves with
  | nil => intro c s bl _ hs; exact hs
  | cons leaf rest ih =>
    intro c s bl hpos hs
    simp only [assignLoop]
    by_cases hskip : (!rp && pyTruthyStr leaf.tar_id) = true
    · simp only [hskip, if_true]
      exact ih c s bl (fun l hl => hpos l (List.mem_cons_of_mem _ hl)) hs
    · simp only [hskip, Bool.false_eq_true, if_false]
      have hsz := hpos leaf (List.mem_cons_self _ _)
      by_cases hadv : (T < s + leaf.size ∧ 0 < s)
      · simp only [if_pos hadv]
        exact ih _ _ _ (fun l hl => hpos l (List.mem_cons_of_mem _ hl)) (by omega)
      · simp only [if_neg hadv]
        exact ih _ _ _ (fun l hl => hpos l (List.mem_cons_of_mem _ hl)) (by omega)

/-- When every leaf has positive size and the loop assigned at least one
leaf, the final current bag size is positive. -/
lemma assignLoop_size_pos_of_assigned (T : Nat) (rp : Bool) :
    ∀ (leaves : List LeafToBag) (c s : Nat) (bl : List (String × LeafEntry)),
    (∀ l ∈ leaves, 1 ≤ l.size) →
    loopAssignedTids rp leaves (assignLoop T rp leaves c s bl).1 ≠ [] →
    1 ≤ (assignLoop T rp leaves c s bl).2.2.1 := by
  intro leaves
  induction leaves with
  | nil => intro c s bl _ hne; simp [assignLoop, loopAssignedTids] at hne
  | cons leaf rest ih =>
    intro c s bl hpos hne
    simp only [assignLoop] at hne ⊢
    by_cases hskip : (!rp && pyTruthyStr leaf.tar_id) = true
    · have hcond : (rp || !(pyTruthyStr leaf.tar_id)) = false := by
        cases hrp : rp <;> cases ht : pyTruthyStr leaf.tar_id <;> simp_all
      simp only [hskip, if_true] at hne ⊢
      simp only [loopAssignedTids, List.zip_cons_cons, List.filterMap_cons, hcond,
        Bool.false_eq_true, if_false] at hne
      exact ih c s bl (fun l hl => hpos l (List.mem_cons_of_mem _ hl)) hne
    · have hsz := hpos leaf (List.mem_cons_self _ _)
      simp only [hskip, Bool.false_eq_true, if_false] at hne ⊢
      by_cases hadv : (T < s + leaf.size ∧ 0 < s)
      · simp only [if_pos hadv]
        exact assignLoop_size_pos T rp rest _ _ _
          (fun l hl => hpos l (List.mem_cons_of_mem _ hl)) (by omega)
      · simp only [if_neg hadv]
        exact assignLoop_size_pos T rp rest _ _ _
          (fun l hl => hpos l (List.mem_cons_of_mem _ hl)) (by omega)

/-- From a state whose current bag already exceeds the target, every id
the loop assigns is strictly beyond the current counter. -/
lemma assignLoop_assigned_ge_of_big (T : Nat) (rp : Bool) :
    ∀ (leaves : List LeafToBag) (c s : Nat) (bl : List (String × LeafEntry)),
    T < s →
    ∀ tid ∈ loopAssignedTids rp leaves (assignLoop T rp leaves c s bl).1,
      ∃ k, tid = mkBagId k ∧ c + 1 ≤ k := by
  intro leaves
  induction leaves with
  | nil => intro c s bl _ tid htid; simp [assignLoop, loopAssignedTids] at htid
  | cons leaf rest ih =>
    intro c s bl hbig tid htid
    simp only [assignLoop] at htid
    by_cases hskip : (!rp && pyTruthyStr leaf.tar_id) = true
    · have hcond : (rp || !(pyTruthyStr leaf.tar_id)) = false := by
        cases hrp : rp <;> cases ht : pyTruthyStr leaf.tar_id <;> simp_all
      simp only [hskip, if_true] at htid
      simp only [loopAssignedTids, List.zip_cons_cons, List.filterMap_cons, hcond,
        Bool.false_eq_true, if_false] at htid
      exact ih c s bl hbig tid htid
    · have hcond : (rp || !(pyTruthyStr leaf.tar_id)) = true := by
        cases hrp : rp <;> cases ht : pyTruthyStr leaf.tar_id <;> simp_all
      have hadv : (T < s + leaf.size ∧ 0 < s) := ⟨by omega, by omega⟩
      simp only [hskip, Bool.false_eq_true, if_false, if_pos hadv] at htid
      simp only [loopAssignedTids, List.zip_cons_cons, List.filterMap_cons, hcond,
        if_true] at htid
      rcases List.mem_cons.mp htid with rfl | hmem
      · exact ⟨c + 1, rfl, le_rfl⟩
      · obtain ⟨k, hk, _, _⟩ := assignLoop_assigned_mem T rp rest (c + 1) _ _ tid hmem
        exact ⟨k, hk, by
          obtain ⟨k', hk', hk1', _⟩ :=
            assignLoop_assigned_mem T rp rest (c + 1) _ _ tid hmem
          have : k' = k := mkBagId_inj (hk'.symm.trans hk)
          omega⟩

/-- Running the loop on an appended list splits into two runs. -/
lemma assignLoop_append (T : Nat) (rp : Bool) : ∀ (xs ys : List LeafToBag)
    (c s : Nat) (bl : List (String × LeafEntry)),
    assignLoop T rp (xs ++ ys) c s bl
      = ((assignLoop T rp xs c s bl).1
            ++ (assignLoop T rp ys (assignLoop T rp xs c s bl).2.1
                (assignLoop T rp xs c s bl).2.2.1
                (assignLoop T rp xs c s bl).2.2.2).1,
         (assignLoop T rp ys (assignLoop T rp xs c s bl).2.1
            (assignLoop T rp xs c s bl).2.2.1
            (assignLoop T rp xs c s bl).2.2.2).2) := by
  intro xs
  induction xs with
  | nil => intro ys c s bl; rfl
  | cons x xs ih =>
    intro ys c s bl
    simp only [List.cons_append, assignLoop]
    by_cases hskip : (!rp && pyTruthyStr x.tar_id) = true
    · simp only [hskip, if_true, List.append_eq, ih, List.cons_append]
    · simp only [hskip, Bool.false_eq_true, if_false]
      by_cases hadv : (T < s + x.size ∧ 0 < s)
      · simp only [if_pos hadv, List.append_eq, ih, List.cons_append]
      · simp only [if_neg hadv, List.append_eq, ih, List.cons_append]

/-- `loopAssignedTids` distributes over appends of equal-length halves. -/
lemma loopAssignedTids_append (rp : Bool) (xs ys out1 out2 : List LeafToBag)
    (h : xs.length = out1.length) :
    loopAssignedTids rp (xs ++ ys) (out1 ++ out2)
      = loopAssignedTids rp xs out1 ++ loopAssignedTids rp ys out2 := by
  unfold loopAssignedTids
  rw [List.zip_append h, List.filterMap_append]

lemma pyMaxNatD_init_le (l : List Nat) : ∀ d, d ≤ pyMaxNatD l d := by
  induction l with
  | nil => intro d; exact le_rfl
  | cons x xs ih =>
    intro d
    simp only [pyMaxNatD, List.foldl_cons] at ih ⊢
    exact le_trans (le_max_left d x) (ih (max d x))

lemma le_pyMaxNatD_of_mem {a : Nat} : ∀ (l : List Nat), a ∈ l →
    ∀ d, a ≤ pyMaxNatD l d := by
  intro l
  induction l with
  | nil => intro h; cases h
  | cons x xs ih =>
    intro h d
    simp only [pyMaxNatD, List.foldl_cons] at ih ⊢
    rcases List.mem_cons.mp h with rfl | hm
    · exact le_trans (le_max_right d a)
        (by simpa [pyMaxNatD] using pyMaxNatD_init_le xs (max d a))
    · exact ih hm _

/-- The next-fit count bound for one loop run: the number of distinct
assigned ids is at most `(2·V + s)/(T+1) + 1`. -/
lemma assignLoop_distinct_bound (T : Nat) (rp : Bool) (leaves : List LeafToBag)
    (c s : Nat) (bl : List (String × LeafEntry)) :
    (loopAssignedTids rp leaves (assignLoop T rp leaves c s bl).1).dedup.length
      ≤ (2 * assignedVolume rp leaves + s) / (T + 1) + 1 := by
  set ids := loopAssignedTids rp leaves (assignLoop T rp leaves c s bl).1 with hids
  set cf := (assignLoop T rp leaves c s bl).2.1 with hcf
  have hsub : ∀ tid ∈ ids, tid ∈ (List.range' c (cf - c + 1)).map mkBagId := by
    intro tid htid
    obtain ⟨k, rfl, hk1, hk2⟩ := assignLoop_assigned_mem T rp leaves c s bl tid htid
    exact List.mem_map_of_mem _ (List.mem_range'_1.mpr ⟨hk1, by omega⟩)
  have hcard : ids.dedup.length ≤ cf - c + 1 := by
    have h1 : ids.toFinset.card = ids.dedup.length := List.card_toFinset ids
    have h2 : ids.toFinset ⊆ ((List.range' c (cf - c + 1)).map mkBagId).toFinset := by
      intro x hx
      rw [List.mem_toFinset] at hx ⊢
      exact hsub x hx
    have h3 := Finset.card_le_card h2
    have h4 := List.toFinset_card_le ((List.range' c (cf - c + 1)).map mkBagId)
    rw [List.length_map, List.length_range'] at h4
    omega
  have hmono := assignLoop_counter_le T rp leaves c s bl
  have hvol := assignLoop_volume_bound T rp leaves c s bl
  have hdiv : cf - c ≤ (2 * assignedVolume rp leaves + s) / (T + 1) := by
    rw [Nat.le_div_iff_mul_le (by omega : 0 < T + 1)]
    have he : (cf - c) * (T + 1) + c * (T + 1) = cf * (T + 1) := by
      rw [← Nat.add_mul, Nat.sub_add_cancel hmono]
    have hc1 : cf * (T + 1) = (T + 1) * cf := Nat.mul_comm _ _
    have hc2 : c * (T + 1) = (T + 1) * c := Nat.mul_comm _ _
    linarith
  omega

lemma standardInitSize_eq (bl : List (String × LeafEntry)) (n : Nat) :
    standardInitSize bl n
      = ((bl.filter fun kv => decide (kv.2.tar_id = some (mkBagId n))).map
          fun kv => kv.2.size_bytes).sum := by
  have haux : ∀ (l : List (String × LeafEntry)) (a : Nat),
      l.foldl (fun s kv =>
          if kv.2.tar_id = some (mkBagId n) then s + kv.2.size_bytes else s) a
        = a + ((l.filter fun kv => decide (kv.2.tar_id = some (mkBagId n))).map
            fun kv => kv.2.size_bytes).sum := by
    intro l
    induction l with
    | nil => intro a; simp
    | cons kv rest ih =>
      intro a
      by_cases hkv : kv.2.tar_id = some (mkBagId n)
      · simp [List.foldl_cons, List.filter_cons, hkv, ih]
        omega
      · simp [List.foldl_cons, List.filter_cons, hkv, ih]
  simpa [standardInitSize] using haux bl 0

/-! ## Claim theorems: the bag packer (C3, C4, C7) -/

/-- Claim C7 counterexample: a repack of six leaves of size 6 with target
size 10 opens six bags, while the claimed bound `⌈V/T⌉ + 1` allows only
five (`V = 36`, `⌈36/10⌉ + 1 = 5`). -/
theorem packer_bag_bound_counterexample :
    assignedVolume true (packerInputLeaves
        [⟨"k0", "p", false, [], 6, none⟩, ⟨"k1", "p", false, [], 6, none⟩,
         ⟨"k2", "p", false, [], 6, none⟩, ⟨"k3", "p", false, [], 6, none⟩,
         ⟨"k4", "p", false, [], 6, none⟩, ⟨"k5", "p", false, [], 6, none⟩] true) = 36
    ∧ (loopAssignedTids true
        (packerInputLeaves
          [⟨"k0", "p", false, [], 6, none⟩, ⟨"k1", "p", false, [], 6, none⟩,
           ⟨"k2", "p", false, [], 6, none⟩, ⟨"k3", "p", false, [], 6, none⟩,
           ⟨"k4", "p", false, [], 6, none⟩, ⟨"k5", "p", false, [], 6, none⟩] true)
        (assign_bags_to_leaves 10
          [⟨"k0", "p", false, [], 6, none⟩, ⟨"k1", "p", false, [], 6, none⟩,
           ⟨"k2", "p", false, [], 6, none⟩, ⟨"k3", "p", false, [], 6, none⟩,
           ⟨"k4", "p", false, [], 6, none⟩, ⟨"k5", "p", false, [], 6, none⟩]
          ⟨[]⟩ [] true).1).dedup.length = 6
    ∧ (36 + 10 - 1) / 10 + 1 = 5
    ∧ ¬ (6 ≤ 5) := by
  refine ⟨by decide, by decide, by decide, by decide⟩

/-- Claim C7 (amended): a packing run with unassigned volume `V`, target
`T` and initial fill `s₀` of the continued bag (`0` on repack) assigns at
most `(2·V + s₀)/(T+1) + 1` distinct bag ids; the originally claimed
`⌈V/T⌉ + 1` does not hold for the code's next-fit loop. -/
theorem packer_new_bags_bound (T : Nat) (leaves : List LeafToBag)
    (inv : Inventory) (bl : List (String × LeafEntry)) (rp : Bool) :
    (loopAssignedTids rp (packerInputLeaves leaves rp)
        (assign_bags_to_leaves T leaves inv bl rp).1).dedup.length
      ≤ (2 * assignedVolume rp (packerInputLeaves leaves rp)
          + (if rp then 0 else standardInitSize bl (standardInitCounter inv bl)))
        / (T + 1) + 1 := by
  cases rp with
  | true =>
    simp only [assign_bags_to_leaves, if_true]
    simpa using assignLoop_distinct_bound T true (packerInputLeaves leaves true) 1 0 bl
  | false =>
    simp only [assign_bags_to_leaves, packerInputLeaves, Bool.false_eq_true, if_false]
    exact assignLoop_distinct_bound T false leaves
      (standardInitCounter inv bl) (standardInitSize bl (standardInitCounter inv bl)) bl

/-- Claim C3 counterexample: with `bag_00005` already in the catalog, a
repack of another branch assigns `bag_00001`, which is not greater than
the pre-existing bag number 5. -/
theorem bag_id_monotonicity_counterexample :
    (assign_bags_to_leaves 40 [⟨"k", "p", false, [], 7, some "bag_00009"⟩]
        ⟨[("other", ⟨[("x", ⟨"h", false, 3, some "bag_00005", none, none, none⟩)],
          none⟩)]⟩
        [("k", ⟨"h", true, 7, some "bag_00009", none, none, none⟩)] true).1
      = [⟨"k", "p", false, [], 7, some "bag_00001"⟩]
    ∧ globalBagNums ⟨[("other", ⟨[("x", ⟨"h", false, 3, some "bag_00005", none,
        none, none⟩)], none⟩)]⟩ = [5]
    ∧ bagNumOfTid "bag_00001" = some 1
    ∧ ¬ (5 < 1) := by
  refine ⟨by decide, by decide, by decide, by decide⟩

/-- Claim C3 (amended): in standard mode, for a branch that has no bag ids
of its own, every newly chosen bag id is strictly greater than every bag
number that existed anywhere in the catalog before the assignment; in
repack mode the counter instead restarts at 1 (the first repacked leaf
receives `bag_00001`), and a branch with existing bags continues at its
own maximum rather than above the global maximum. -/
theorem bag_id_monotonicity_amended (T : Nat) (leaves : List LeafToBag)
    (inv : Inventory) (bl : List (String × LeafEntry))
    (hfresh : collectBagNums bl = []) :
    (∀ tid ∈ loopAssignedTids false leaves
        (assign_bags_to_leaves T leaves inv bl false).1,
      ∃ k, tid = mkBagId k ∧ ∀ m ∈ globalBagNums inv, m < k)
    ∧ (∀ (leaf : LeafToBag) (rest : List LeafToBag),
        (assign_bags_to_leaves T (leaf :: rest) inv bl true).1.head?
          = some { leaf with tar_id := some (mkBagId 1) }) := by
  constructor
  · intro tid htid
    have hc0 : standardInitCounter inv bl = pyMaxNatD (globalBagNums inv) 0 + 1 := by
      simp [standardInitCounter, hfresh]
    simp only [assign_bags_to_leaves, Bool.false_eq_true, if_false] at htid
    obtain ⟨k, rfl, hk1, _⟩ :=
      assignLoop_assigned_mem T false leaves _ _ _ tid htid
    refine ⟨k, rfl, fun m hm => ?_⟩
    have hle := le_pyMaxNatD_of_mem _ hm 0
    rw [hc0] at hk1
    omega
  · intro leaf rest
    simp [assign_bags_to_leaves, packerInputLeaves, assignLoop, lt_irrefl]

/-- Witness for C3 (amended), repack conjunct: a single-leaf repack over
an empty branch map receives `bag_00001`. -/
theorem bag_id_monotonicity_amended_witness :
    (assign_bags_to_leaves 40 [⟨"k", "p", false, [], 7, some "bag_00009"⟩]
        ⟨[]⟩ [] true).1.head?
      = some ⟨"k", "p", false, [], 7, some (mkBagId 1)⟩ :=
  (bag_id_monotonicity_amended 40 [] ⟨[]⟩ [] rfl).2
    ⟨"k", "p", false, [], 7, some "bag_00009"⟩ []

/-- Claim C4: standard-mode initialization of the packer: the counter is
the branch's own maximum bag number when the branch has bag ids, else the
global maximum plus one; `current_bag_size` starts as the summed sizes of
this branch's entries already assigned to that bag id; and every leaf that
already carries a bag id passes through the loop unchanged (reserved
seat). -/
theorem standard_mode_packer_init (T : Nat) (leaves : List LeafToBag)
    (inv : Inventory) (bl : List (String × LeafEntry)) :
    (standardInitCounter inv bl
       = if collectBagNums bl = [] then pyMaxNatD (globalBagNums inv) 0 + 1
         else pyMaxNatD (collectBagNums bl) 0)
    ∧ (standardInitSize bl (standardInitCounter inv bl)
       = ((bl.filter fun kv =>
            decide (kv.2.tar_id = some (mkBagId (standardInitCounter inv bl)))).map
          fun kv => kv.2.size_bytes).sum)
    ∧ (∀ (i : Nat) (l : LeafToBag), leaves.get? i = some l →
        pyTruthyStr l.tar_id = true →
        (assign_bags_to_leaves T leaves inv bl false).1.get? i = some l) := by
  refine ⟨?_, standardInitSize_eq bl _, ?_⟩
  · by_cases h : collectBagNums bl = []
    · simp [standardInitCounter, h]
    · simp [standardInitCounter, h, List.isEmpty_iff]
  · intro i l hi ht
    simp only [assign_bags_to_leaves, Bool.false_eq_true, if_false]
    exact assignLoop_skip_get T leaves _ _ bl i l hi ht

/-- Witness for C4: a reserved-seat leaf keeps its `bag_00002` through a
standard-mode pack. -/
theorem standard_mode_packer_init_witness :
    (assign_bags_to_leaves 40 [⟨"k", "p", false, [], 7, some "bag_00002"⟩]
        ⟨[]⟩ [] false).1.get? 0
      = some ⟨"k", "p", false, [], 7, some "bag_00002"⟩ :=
  (standard_mode_packer_init 40 [⟨"k", "p", false, [], 7, some "bag_00002"⟩]
      ⟨[]⟩ []).2.2 0 ⟨"k", "p", false, [], 7, some "bag_00002"⟩ rfl (by decide)

/-! ## Claim theorems: packer boundary behavior (C8) -/

lemma count_eq_zero_of_forall_ne {x : String} {l : List String}
    (h : ∀ y ∈ l, y ≠ x) : l.count x = 0 :=
  List.count_eq_zero.mpr fun hx => h x hx rfl

/-- Claim C8 counterexample: with target 10 and sizes `[11, 0, 11]` on a
repack, the zero-size second leaf opens `bag_00002` and the oversize third
leaf (11 > 10) is placed into the same `bag_00002` — it is not alone in
its bag. -/
theorem packer_boundary_counterexample :
    (assign_bags_to_leaves 10
        [⟨"a", "p", false, [], 11, none⟩, ⟨"b", "p", false, [], 0, none⟩,
         ⟨"c", "p", false, [], 11, none⟩] ⟨[]⟩ [] true).1
      = [⟨"a", "p", false, [], 11, some "bag_00001"⟩,
         ⟨"b", "p", false, [], 0, some "bag_00002"⟩,
         ⟨"c", "p", false, [], 11, some "bag_00002"⟩]
    ∧ (10 : Nat) < 11 := by
  refine ⟨by decide, by decide⟩

/-- Claim C8 (amended): a leaf that makes the current bag exactly reach
the target is placed in the current bag without opening a new one; and,
provided every leaf in the run has positive size, a leaf larger than the
target is the only leaf of the run assigned to its bag (with zero-size
leaves the code can seat another leaf in the oversize leaf's bag). -/
theorem packer_boundary_amended (T : Nat) :
    (∀ (rp : Bool) (leaf : LeafToBag) (rest : List LeafToBag) (c s : Nat)
        (bl : List (String × LeafEntry)),
      (rp || !(pyTruthyStr leaf.tar_id)) = true → s + leaf.size = T →
      (assignLoop T rp (leaf :: rest) c s bl).1.head?
        = some { leaf with tar_id := some (mkBagId c) })
    ∧ (∀ (rp : Bool) (pre post : List LeafToBag) (L : LeafToBag) (c s : Nat)
        (bl : List (String × LeafEntry)),
      (∀ l ∈ pre ++ L :: post, 1 ≤ l.size) →
      (rp || !(pyTruthyStr L.tar_id)) = true →
      T < L.size →
      ∃ k, (assignLoop T rp (pre ++ L :: post) c s bl).1.get? pre.length
            = some { L with tar_id := some (mkBagId k) }
        ∧ (loopAssignedTids rp (pre ++ L :: post)
            (assignLoop T rp (pre ++ L :: post) c s bl).1).count (mkBagId k) = 1) := by
  constructor
  · intro rp leaf rest c s bl hcond hfit
    have hskip : (!rp && pyTruthyStr leaf.tar_id) = false := by
      cases hrp : rp <;> cases ht : pyTruthyStr leaf.tar_id <;> simp_all
    have hadv : ¬ (T < s + leaf.size ∧ 0 < s) := by
      rintro ⟨h1, -⟩
      rw [hfit] at h1
      omega
    simp [assignLoop, hskip, if_neg hadv]
  · intro rp pre post L c s bl hpos hcond hbig
    have hskipL : (!rp && pyTruthyStr L.tar_id) = false := by
      cases hrp : rp <;> cases ht : pyTruthyStr L.tar_id <;> simp_all
    have hlen1 : (assignLoop T rp pre c s bl).1.length = pre.length :=
      assignLoop_length T rp pre c s bl
    rw [assignLoop_append T rp pre (L :: post) c s bl]
    set c1 := (assignLoop T rp pre c s bl).2.1 with hc1
    set s1 := (assignLoop T rp pre c s bl).2.2.1 with hs1
    set bl1 := (assignLoop T rp pre c s bl).2.2.2 with hbl1
    by_cases hs1p : 0 < s1
    · -- the pre segment left a non-empty bag: L advances to a fresh bag
      have hadv : (T < s1 + L.size ∧ 0 < s1) := ⟨by omega, hs1p⟩
      have hstep : assignLoop T rp (L :: post) c1 s1 bl1
          = ({ L with tar_id := some (mkBagId (c1 + 1)) }
              :: (assignLoop T rp post (c1 + 1) (0 + L.size)
                    (setTid bl1 L.key (mkBagId (c1 + 1)))).1,
             (assignLoop T rp post (c1 + 1) (0 + L.size)
                (setTid bl1 L.key (mkBagId (c1 + 1)))).2) := by
        simp only [assignLoop, hskipL, Bool.false_eq_true, if_false, if_pos hadv]
      rw [hstep]
      refine ⟨c1 + 1, ?_, ?_⟩
      · rw [List.get?_append_right (by omega)]
        simp [hlen1]
      · rw [loopAssignedTids_append rp pre (L :: post) _ _ hlen1.symm]
        rw [List.count_append]
        have hzero1 : (loopAssignedTids rp pre
            (assignLoop T rp pre c s bl).1).count (mkBagId (c1 + 1)) = 0 := by
          apply count_eq_zero_of_forall_ne
          intro tid htid he
          obtain ⟨k', hk', _, hk2⟩ :=
            assignLoop_assigned_mem T rp pre c s bl tid htid
          have := mkBagId_inj (hk'.symm.trans he).symm
          omega
        have hcons : loopAssignedTids rp (L :: post)
            ({ L with tar_id := some (mkBagId (c1 + 1)) }
              :: (assignLoop T rp post (c1 + 1) (0 + L.size)
                    (setTid bl1 L.key (mkBagId (c1 + 1)))).1)
            = mkBagId (c1 + 1)
              :: loopAssignedTids rp post (assignLoop T rp post (c1 + 1) (0 + L.size)
                    (setTid bl1 L.key (mkBagId (c1 + 1)))).1 := by
          have hcondp : (rp = true ∨ pyTruthyStr L.tar_id = false) := by
            cases hrp : rp <;> simp_all
          simp [loopAssignedTids, hcondp]
        rw [hcons]
        have hzero2 : (loopAssignedTids rp post
            (assignLoop T rp post (c1 + 1) L.size
              (setTid bl1 L.key (mkBagId (c1 + 1)))).1).count (mkBagId (c1 + 1)) = 0 := by
          apply count_eq_zero_of_forall_ne
          intro tid htid he
          obtain ⟨k'', hk'', hk2''⟩ :=
            assignLoop_assigned_ge_of_big T rp post (c1 + 1) L.size
              (setTid bl1 L.key (mkBagId (c1 + 1))) (by omega) tid htid
          have := mkBagId_inj (hk''.symm.trans he).symm
          omega
        simp [List.count_cons, hzero1, hzero2]
    · -- the pre segment assigned nothing (its bag is still empty): no advance
      have hs1z : s1 = 0 := by omega
      have hadv : ¬ (T < s1 + L.size ∧ 0 < s1) := by
        rintro ⟨-, h2⟩
        omega
      have hstep : assignLoop T rp (L :: post) c1 s1 bl1
          = ({ L with tar_id := some (mkBagId c1) }
              :: (assignLoop T rp post c1 (s1 + L.size)
                    (setTid bl1 L.key (mkBagId c1))).1,
             (assignLoop T rp post c1 (s1 + L.size)
                (setTid bl1 L.key (mkBagId c1))).2) := by
        simp only [assignLoop, hskipL, Bool.false_eq_true, if_false, if_neg hadv]
      rw [hstep]
      refine ⟨c1, ?_, ?_⟩
      · rw [List.get?_append_right (by omega)]
        simp [hlen1]
      · rw [loopAssignedTids_append rp pre (L :: post) _ _ hlen1.symm]
        rw [List.count_append]
        have hzero1 : (loopAssignedTids rp pre
            (assignLoop T rp pre c s bl).1).count (mkBagId c1) = 0 := by
          apply count_eq_zero_of_forall_ne
          intro tid htid he
          have hne : loopAssignedTids rp pre (assignLoop T rp pre c s bl).1 ≠ [] :=
            fun hnil => by rw [hnil] at htid; cases htid
          have := assignLoop_size_pos_of_assigned T rp pre c s bl
            (fun l hl => hpos l (List.mem_append_left _ hl)) hne
          omega
        have hcons : loopAssignedTids rp (L :: post)
            ({ L with tar_id := some (mkBagId c1) }
              :: (assignLoop T rp post c1 (s1 + L.size)
                    (setTid bl1 L.key (mkBagId c1))).1)
            = mkBagId c1
              :: loopAssignedTids rp post (assignLoop T rp post c1 (s1 + L.size)
                    (setTid bl1 L.key (mkBagId c1))).1 := by
          have hcondp : (rp = true ∨ pyTruthyStr L.tar_id = false) := by
            cases hrp : rp <;> simp_all
          simp [loopAssignedTids, hcondp]
        rw [hcons]
        have hzero2 : (loopAssignedTids rp post
            (assignLoop T rp post c1 (s1 + L.size)
              (setTid bl1 L.key (mkBagId c1))).1).count (mkBagId c1) = 0 := by
          apply count_eq_zero_of_forall_ne
          intro tid htid he
          obtain ⟨k'', hk'', hk2''⟩ :=
            assignLoop_assigned_ge_of_big T rp post c1 (s1 + L.size)
              (setTid bl1 L.key (mkBagId c1)) (by omega) tid htid
          have := mkBagId_inj (hk''.symm.trans he).symm
          omega
        simp [List.count_cons, hzero1, hzero2]

/-- Witness for C8 (amended): target 10, sizes `[3, 11, 4]` on a repack;
the oversize middle leaf sits alone in `bag_00002`. -/
theorem packer_boundary_amended_witness :
    ∃ k, (assignLoop 10 true
          ([⟨"a", "p", false, [], 3, none⟩] ++ ⟨"b", "p", false, [], 11, none⟩
            :: [⟨"c", "p", false, [], 4, none⟩]) 1 0 []).1.get? 1
        = some { (⟨"b", "p", false, [], 11, none⟩ : LeafToBag)
                  with tar_id := some (mkBagId k) }
      ∧ (loopAssignedTids true
          ([⟨"a", "p", false, [], 3, none⟩] ++ ⟨"b", "p", false, [], 11, none⟩
            :: [⟨"c", "p", false, [], 4, none⟩])
          (assignLoop 10 true
            ([⟨"a", "p", false, [], 3, none⟩] ++ ⟨"b", "p", false, [], 11, none⟩
              :: [⟨"c", "p", false, [], 4, none⟩]) 1 0 []).1).count (mkBagId k)
        = 1 :=
  (packer_boundary_amended 10).2 true
    [⟨"a", "p", false, [], 3, none⟩] [⟨"c", "p", false, [], 4, none⟩]
    ⟨"b", "p", false, [], 11, none⟩ 1 0 []
    (by decide) (by decide) (by decide)

/-! ## Claim theorems: bag-id stability across scans (C2) -/

/-- The catalog entry a scan writes for a leaf, in terms of the state
before the scan (keys assumed distinct, as produced by
`identify_leaves`). -/
lemma scan_lookup_eq (mh : ScanLeaf → String × Nat)
    (found_leaves : List ScanLeaf) (bl : List (String × LeafEntry)) (rp : Bool)
    (hnd : (found_leaves.map (·.key)).Nodup) (leaf : ScanLeaf)
    (hmem : leaf ∈ found_leaves) :
    alookup (scan_and_update_inventory mh found_leaves bl rp).1 leaf.key
      = some (scanEntry (alookup bl leaf.key) (mh leaf).1 (mh leaf).2 rp) := by
  induction found_leaves generalizing bl with
  | nil => cases hmem
  | cons l rest ih =>
    rw [List.map_cons, List.nodup_cons] at hnd
    obtain ⟨hknot, hnd'⟩ := hnd
    rcases List.mem_cons.mp hmem with rfl | hmem'
    · simp only [scan_and_update_inventory]
      rw [scan_preserves_other]
      · simp only [scanStep]
        rw [alookup_aupdate_self]
      · intro l' hl' hkeq
        exact hknot (hkeq ▸ List.mem_map_of_mem (·.key) hl')
    · have hkne : l.key ≠ leaf.key := by
        intro he
        exact hknot (he ▸ List.mem_map_of_mem (·.key) hmem')
      have heq : alookup (scanStep mh rp bl l).1 leaf.key = alookup bl leaf.key := by
        simp only [scanStep]
        exact alookup_aupdate_ne _ _ _ _ hkne
      have hrec := ih (scanStep mh rp bl l).1 hnd' hmem'
      rw [heq] at hrec
      simpa only [scan_and_update_inventory] using hrec

/-- Claim C2 counterexample: a leaf whose fingerprint changes on a
non-repack re-scan keeps its `tar_id` (`bag_00001`); the scan does not
clear the bag id (only `archive_key` is dropped). -/
theorem scan_clears_bag_id_counterexample :
    ∃ e, alookup (scan_and_update_inventory (fun _ => ("h2", 5))
        [⟨"k", "p", false, []⟩]
        [("k", ⟨"h1", false, 4, some "bag_00001", some "ak", none, none⟩)]
        false).1 "k" = some e
      ∧ e.last_metadata_hash = "h2"
      ∧ e.tar_id = some "bag_00001"
      ∧ ¬ e.tar_id = none
      ∧ e.archive_key = none := by
  refine ⟨_, rfl, by decide, by decide, by decide, by decide⟩

/-- Claim C2 (amended): a fingerprint change on a non-repack re-scan does
not clear the leaf's bag id: the scan always carries `tar_id` over
unchanged and clears only `archive_key` on a change, and the
standard-mode packer skips every leaf that already carries a bag id
(reserved seat), leaving it exactly as it was.  Bag assignments are
cleared only by an explicit repack (or reset/delete paths). -/
theorem scan_keeps_bag_id (mh : ScanLeaf → String × Nat)
    (found_leaves : List ScanLeaf) (bl : List (String × LeafEntry))
    (hnd : (found_leaves.map (·.key)).Nodup) (leaf : ScanLeaf)
    (hmem : leaf ∈ found_leaves) (e0 : LeafEntry)
    (h0 : alookup bl leaf.key = some e0) :
    (∃ e, alookup (scan_and_update_inventory mh found_leaves bl false).1 leaf.key
        = some e
      ∧ e.tar_id = e0.tar_id
      ∧ e.archive_key
          = (if e0.last_metadata_hash = (mh leaf).1 then e0.archive_key else none))
    ∧ (∀ (T : Nat) (leaves : List LeafToBag) (inv : Inventory)
        (bl2 : List (String × LeafEntry)) (i : Nat) (l : LeafToBag),
        leaves.get? i = some l → pyTruthyStr l.tar_id = true →
        (assign_bags_to_leaves T leaves inv bl2 false).1.get? i = some l) := by
  constructor
  · rw [scan_lookup_eq mh found_leaves bl false hnd leaf hmem, h0]
    refine ⟨_, rfl, ?_, ?_⟩
    · simp [scanEntry]
    · by_cases hch : e0.last_metadata_hash = (mh leaf).1
      · simp [scanEntry, hch]
      · simp [scanEntry, hch]
  · intro T leaves inv bl2 i l hi ht
    simp only [assign_bags_to_leaves, Bool.false_eq_true, if_false]
    exact assignLoop_skip_get T leaves _ _ bl2 i l hi ht

/-- Witness for C2 (amended): the changed leaf of the counterexample
keeps `bag_00001` and loses only its `archive_key`. -/
theorem scan_keeps_bag_id_witness :
    ∃ e, alookup (scan_and_update_inventory (fun _ => ("h2", 5))
        [⟨"k", "p", false, []⟩]
        [("k", ⟨"h1", false, 4, some "bag_00001", some "ak", none, none⟩)]
        false).1 "k" = some e
      ∧ e.tar_id = ((⟨"h1", false, 4, some "bag_00001", some "ak", none,
          none⟩ : LeafEntry)).tar_id
      ∧ e.archive_key = (if ("h1" : String) = "h2" then some "ak" else none) := by
  have := (scan_keeps_bag_id (fun _ => ("h2", 5)) [⟨"k", "p", false, []⟩]
    [("k", ⟨"h1", false, 4, some "bag_00001", some "ak", none, none⟩)]
    (by simp) ⟨"k", "p", false, []⟩ (List.mem_singleton.mpr rfl)
    ⟨"h1", false, 4, some "bag_00001", some "ak", none, none⟩ rfl).1
  simpa using this

/-! ## Claim theorems: catalog commit discipline (C1) -/

lemma alookup_updateBranch (l : List (String × BranchData)) (bk k : String)
    (f : List (String × LeafEntry) → List (String × LeafEntry)) :
    alookup ((updateBranchLeaves ⟨l⟩ bk f).branches) k
      = if k = bk
        then (alookup l k).map fun bd => ⟨f bd.leaves, bd.last_scan⟩
        else alookup l k := by
  induction l with
  | nil => by_cases h : k = bk <;> simp [updateBranchLeaves, alookup, h]
  | cons kv rest ih =>
    obtain ⟨k', bd⟩ := kv
    have hg : (updateBranchLeaves ⟨(k', bd) :: rest⟩ bk f).branches
        = (if k' = bk then (k', (⟨f bd.leaves, bd.last_scan⟩ : BranchData))
            else (k', bd))
          :: (updateBranchLeaves ⟨rest⟩ bk f).branches := rfl
    rw [hg]
    by_cases h1 : k' = bk
    · rw [if_pos h1]
      by_cases h2 : k' = k
      · subst h2
        simp only [alookup, if_pos rfl]
        rw [if_pos h1]
        simp [alookup]
      · simp only [alookup, if_neg h2]
        rw [ih]
    · rw [if_neg h1]
      by_cases h2 : k' = k
      · subst h2
        simp only [alookup, if_pos rfl]
        rw [if_neg h1]
        simp [alookup]
      · simp only [alookup, if_neg h2]
        rw [ih]

/-- Claim C1 counterexample: the trace of a live catalog commit is a
single direct write to the canonical inventory file; it is not of the
write-temp-then-rename shape the claim describes. -/
theorem commit_not_atomic_counterexample :
    (commit_to_inventory [⟨"k", "p", false, [], 7, some "bag_00001"⟩]
        ⟨[("b", ⟨[("k", ⟨"h", true, 7, some "bag_00001", none, none, none⟩)],
          none⟩)]⟩ "b" true "t0" (some "etag") "inventory.json").2
      = [FsEff.write "inventory.json"
          (inventoryToJVal (commit_to_inventory
            [⟨"k", "p", false, [], 7, some "bag_00001"⟩]
            ⟨[("b", ⟨[("k", ⟨"h", true, 7, some "bag_00001", none, none, none⟩)],
              none⟩)]⟩ "b" true "t0" (some "etag") "inventory.json").1)]
    ∧ ¬ ∃ tmp content, (commit_to_inventory
          [⟨"k", "p", false, [], 7, some "bag_00001"⟩]
          ⟨[("b", ⟨[("k", ⟨"h", true, 7, some "bag_00001", none, none, none⟩)],
            none⟩)]⟩ "b" true "t0" (some "etag") "inventory.json").2
        = [FsEff.write tmp content, FsEff.rename tmp "inventory.json"] := by
  refine ⟨rfl, ?_⟩
  rintro ⟨tmp, content, h⟩
  rw [show (commit_to_inventory [⟨"k", "p", false, [], 7, some "bag_00001"⟩]
      ⟨[("b", ⟨[("k", ⟨"h", true, 7, some "bag_00001", none, none, none⟩)],
        none⟩)]⟩ "b" true "t0" (some "etag") "inventory.json").2
      = [FsEff.write "inventory.json"
          (inventoryToJVal (commit_to_inventory
            [⟨"k", "p", false, [], 7, some "bag_00001"⟩]
            ⟨[("b", ⟨[("k", ⟨"h", true, 7, some "bag_00001", none, none, none⟩)],
              none⟩)]⟩ "b" true "t0" (some "etag") "inventory.json").1)]
    from rfl] at h
  simp at h

/-- Claim C1 (amended): after each committed bag the in-memory inventory
is updated (the committed leaf gets `needs_upload = False`, a fresh
`last_upload` stamp and the recorded etag) and, on a live run, serialized
directly to the canonical catalog file in a single write — there is no
sibling temp file and no atomic rename; a crash during the write can
leave a partially written catalog.  Dry runs write nothing. -/
theorem commit_write_discipline (leaf : LeafToBag) (inv : Inventory)
    (branch_line now : String) (etag : Option String) (inventory_file : String)
    (bd : BranchData) (e0 : LeafEntry)
    (hbd : alookup inv.branches branch_line = some bd)
    (h0 : alookup bd.leaves leaf.key = some e0) :
    (commit_to_inventory [leaf] inv branch_line false now etag inventory_file).2 = []
    ∧ (commit_to_inventory [leaf] inv branch_line true now etag inventory_file).2
        = [FsEff.write inventory_file
            (inventoryToJVal (commit_to_inventory [leaf] inv branch_line true now
              etag inventory_file).1)]
    ∧ (∃ bd', alookup (commit_to_inventory [leaf] inv branch_line true now etag
          inventory_file).1.branches branch_line = some bd'
        ∧ alookup bd'.leaves leaf.key
            = some { e0 with
                      needs_upload := false
                      last_upload := some now
                      etag := etag }) := by
  refine ⟨rfl, rfl, ?_⟩
  obtain ⟨brs⟩ := inv
  simp only [commit_to_inventory, List.foldl_cons, List.foldl_nil]
  rw [alookup_updateBranch brs branch_line branch_line _, if_pos rfl, hbd]
  refine ⟨_, rfl, ?_⟩
  simp only [h0]
  exact alookup_aupdate_self _ _ _

/-- Witness for C1 (amended): a concrete live commit writes once,
directly, and flips the committed leaf's upload state. -/
theorem commit_write_discipline_witness :
    ∃ bd', alookup (commit_to_inventory [⟨"k", "p", false, [], 7, some "bag_00001"⟩]
        ⟨[("b", ⟨[("k", ⟨"h", true, 7, some "bag_00001", none, none, none⟩)],
          none⟩)]⟩ "b" true "t0" (some "etag0") "inventory.json").1.branches "b"
      = some bd'
    ∧ alookup bd'.leaves "k"
        = some { (⟨"h", true, 7, some "bag_00001", none, none,
                  none⟩ : LeafEntry) with
                  needs_upload := false
                  last_upload := some "t0"
                  etag := some "etag0" } :=
  (commit_write_discipline ⟨"k", "p", false, [], 7, some "bag_00001"⟩
    ⟨[("b", ⟨[("k", ⟨"h", true, 7, some "bag_00001", none, none, none⟩)], none⟩)]⟩
    "b" "t0" (some "etag0") "inventory.json"
    ⟨[("k", ⟨"h", true, 7, some "bag_00001", none, none, none⟩)], none⟩
    ⟨"h", true, 7, some "bag_00001", none, none, none⟩ rfl rfl).2.2

/-! ## Claim theorems: encryption validation (C9) -/

/-- Claim C9 counterexample: the branch line `"/data :: ENCRYPT"` carries
the ENCRYPT tag (the parser strips and upper-cases tag parts), it is a
processed line of the tree file, the key material is absent — yet
validation succeeds, because the code only checks for the literal
substring `"::ENCRYPT"`, which this line does not contain. -/
theorem encrypt_validation_counterexample :
    carriesTag "/data :: ENCRYPT" "ENCRYPT" = true
    ∧ treeLines "/data :: ENCRYPT" = ["/data :: ENCRYPT"]
    ∧ validate_encryption_config (some "/data :: ENCRYPT") false 0
        = Except.ok none := by
  refine ⟨by decide, by decide, rfl⟩

/-- Claim C9 (amended): validation runs before any work and fails fast
(exit 1) exactly when the raw tree-file text contains the literal
substring `"::ENCRYPT"` and the key file is missing or empty.  This
trigger is a substring test on the raw text, not the per-line tag parse:
a line whose ENCRYPT tag is spelled with different spacing or case is
missed, and a comment containing `"::ENCRYPT"` triggers validation even
though no branch carries the tag. -/
theorem encrypt_validation_substring_policy (tc : Option String) (ke : Bool)
    (ks : Nat) :
    (validate_encryption_config tc ke ks = Except.error ()
      ↔ ((∃ c, tc = some c ∧ pyContains c "::ENCRYPT" = true)
          ∧ (ke = false ∨ ks = 0)))
    ∧ (∀ c, tc = some c → pyContains c "::ENCRYPT" = false →
        validate_encryption_config tc ke ks = Except.ok none)
    ∧ (tc = none → validate_encryption_config tc ke ks = Except.ok none) := by
  cases tc with
  | none => simp [validate_encryption_config]
  | some c =>
    by_cases hc : pyContains c "::ENCRYPT" = true
    · cases ke with
      | false =>
        simp [validate_encryption_config, hc]
      | true =>
        by_cases hks : ks = 0
        · subst hks
          simp [validate_encryption_config, hc]
        · have hbeq : (ks == 0) = false := by
            simpa using hks
          simp [validate_encryption_config, hc, hbeq, hks]
    · have hc' : pyContains c "::ENCRYPT" = false := by
        simpa using hc
      simp [validate_encryption_config, hc']

/-- Witness for C9 (amended): the tag-carrying line spelled with a space
does not contain the literal substring, so a missing key passes
validation. -/
theorem encrypt_validation_substring_policy_witness :
    validate_encryption_config (some "/data :: ENCRYPT") false 0
      = Except.ok none :=
  (encrypt_validation_substring_policy (some "/data :: ENCRYPT") false 0).2.1
    "/data :: ENCRYPT" rfl (by decide)

end Glacier
